import Mathlib

/-!
# pgproto3 wire messages: MPPQuery, ParameterMopHighWaterMark, WroteXlog

A shallow embedding of `src/pgproto3/mpp_query.go`,
`src/pgproto3/parameter_mop_high_water_mark.go` and `src/pgproto3/wrote_xlog.go`
(namespace `Pgproto3`); `src/composite_fields.go` follows in namespace `Pgtype`.
Definitions come first, then the theorems of both parts.

* A Go `[]byte` is a `List Byte`; a Go `string` is the list of its bytes.
* A Go call either returns or aborts with a run-time panic, so `Decode`
  produces an `Outcome`: the destination after the call together with the
  returned `error` value (`none` is `nil`), or `panic`.
* `int` (64-bit, never overflowing on a length plus 5), `int32`, `uint32` and `uint64` are
  `Int`/`Nat` with explicit wrap-around.
-/

namespace Pgproto3

/-- One octet. -/
abbrev Byte := Fin 256

/-- Conversion of a non-negative integer to a byte, keeping the low 8 bits. -/
def toByte (n : Nat) : Byte := ⟨n % 256, Nat.mod_lt n (by decide)⟩

/-! ## Errors and outcomes -/

/-- The error value built by `&invalidMessageFormatErr{messageType: ..., details: ...}`. -/
structure invalidMessageFormatErr where
  messageType : String
  details : String
  deriving DecidableEq

/-- The `error` values the three decoders can return. -/
inductive GoError where
  | invalidMessageFormat (e : invalidMessageFormatErr)
  | EOF
  deriving DecidableEq

/-- Result of running a method with a pointer receiver: either it returns, leaving
the receiver in state `dst` and yielding `err` (`none` for `nil`), or it panics. -/
inductive Outcome (α : Type) where
  | ret (dst : α) (err : Option GoError)
  | panic
  deriving DecidableEq

/-- The call returned a non-nil `*invalidMessageFormatErr`. -/
def Outcome.isMalformed {α : Type} : Outcome α → Bool
  | .ret _ (some (.invalidMessageFormat _)) => true
  | _ => false

/-- The call returned `nil`. -/
def Outcome.isSuccess {α : Type} : Outcome α → Bool
  | .ret _ none => true
  | _ => false

/-! ## Standard-library and pgio helpers -/

/-- Go `bytes.IndexByte(b, c)`: index of the first `c` in `b`, or `-1`. -/
def IndexByte : List Byte → Byte → Int
  | [], _ => -1
  | x :: xs, c =>
    if x = c then 0
    else
      let r := IndexByte xs c
      if r = -1 then -1 else r + 1

/-- Go slice expression `src[:i]`: panics (here `none`) unless `0 ≤ i ≤ len(src)`.
(The upper bound in Go is `cap(src)`; every index the decoders use is below `len(src)`.) -/
def sliceTo (src : List Byte) (i : Int) : Option (List Byte) :=
  if 0 ≤ i ∧ i ≤ (src.length : Int) then some (src.take i.toNat) else none

/-- Go conversion `int32(n)` of an `int`: keep the low 32 bits, read as two's complement. -/
def int32 (n : Int) : Int := (n + 2 ^ 31) % 2 ^ 32 - 2 ^ 31

/-- Go conversion `uint32(n)` of an `int32`. -/
def uint32 (n : Int) : Nat := (n % 2 ^ 32).toNat

/-- Modelled from the spec: `pgio.AppendUint32` (package `internal/pgio` is not among the
sources); the spec fixes the length field as "4-byte big-endian". -/
def AppendUint32 (buf : List Byte) (n : Nat) : List Byte :=
  buf ++ [toByte (n / 2 ^ 24), toByte (n / 2 ^ 16), toByte (n / 2 ^ 8), toByte n]

/-- Modelled from the spec: `pgio.AppendInt32(buf, n)`, which appends `uint32(n)` as
4 big-endian bytes. -/
def AppendInt32 (buf : List Byte) (n : Int) : List Byte :=
  AppendUint32 buf (uint32 n)

/-- Modelled from the spec: `pgio.AppendUint64` (package `internal/pgio` is not among the
sources); the spec describes the counter as "8-byte big-endian". -/
def AppendUint64 (buf : List Byte) (n : Nat) : List Byte :=
  buf ++ [toByte (n / 2 ^ 56), toByte (n / 2 ^ 48), toByte (n / 2 ^ 40), toByte (n / 2 ^ 32),
          toByte (n / 2 ^ 24), toByte (n / 2 ^ 16), toByte (n / 2 ^ 8), toByte n]

/-- Go `binary.BigEndian.Uint32(b)`: panics (here `none`) when `len(b) < 4`. -/
def BigEndianUint32 : List Byte → Option Nat
  | b0 :: b1 :: b2 :: b3 :: _ =>
    some (b3.val + b2.val * 2 ^ 8 + b1.val * 2 ^ 16 + b0.val * 2 ^ 24)
  | _ => none

/-- Go `binary.BigEndian.Uint64(b)`: panics (here `none`) when `len(b) < 8`. -/
def BigEndianUint64 : List Byte → Option Nat
  | b0 :: b1 :: b2 :: b3 :: b4 :: b5 :: b6 :: b7 :: _ =>
    some (b7.val + b6.val * 2 ^ 8 + b5.val * 2 ^ 16 + b4.val * 2 ^ 24 + b3.val * 2 ^ 32
      + b2.val * 2 ^ 40 + b1.val * 2 ^ 48 + b0.val * 2 ^ 56)
  | _ => none

/-- Go `bytes.Buffer` created by `bytes.NewBuffer(src)`: the unread bytes. -/
structure Buffer where
  unread : List Byte
  deriving DecidableEq

/-- Go `bytes.NewBuffer(src)`. -/
def NewBuffer (src : List Byte) : Buffer := ⟨src⟩

/-- Go `(*Buffer).Len()`: number of unread bytes. -/
def Buffer.Len (b : Buffer) : Nat := b.unread.length

/-- Go `(*Buffer).Next(n)`: the next `n` unread bytes (fewer if fewer remain), advancing. -/
def Buffer.Next (b : Buffer) (n : Nat) : List Byte × Buffer :=
  (b.unread.take n, ⟨b.unread.drop n⟩)

/-- Go `(*Buffer).ReadByte()`: the next byte, or `0, io.EOF` when nothing is unread. -/
def Buffer.ReadByte (b : Buffer) : (Byte × Option GoError) × Buffer :=
  match b.unread with
  | [] => ((0, some GoError.EOF), b)
  | x :: xs => ((x, none), ⟨xs⟩)

/-! ## MPPQuery (`mpp_query.go`) -/

/-- Go `type MPPQuery struct { String string }`. -/
structure MPPQuery where
  String : List Byte
  deriving DecidableEq

/-- Go `func (dst *MPPQuery) Decode(src []byte) error`. -/
def MPPQuery.Decode (dst : MPPQuery) (src : List Byte) : Outcome MPPQuery :=
  let i := IndexByte src 0
  if i ≠ (src.length : Int) - 1 then
    .ret dst (some (.invalidMessageFormat ⟨"MPPQuery", ""⟩))
  else
    match sliceTo src i with
    | none => .panic
    | some s => .ret { dst with String := s } none

/-- Go `func (src *MPPQuery) Encode(dst []byte) []byte`. -/
def MPPQuery.Encode (src : MPPQuery) (dst : List Byte) : List Byte :=
  let dst := dst ++ [(87 : Byte)] -- the tag byte W
  let dst := AppendInt32 dst (int32 (4 + (src.String.length : Int) + 1))
  let dst := dst ++ src.String
  let dst := dst ++ [(0 : Byte)]
  dst

/-! ## ParameterMopHighWaterMark (`parameter_mop_high_water_mark.go`) -/

/-- Go `type ParameterMopHighWaterMark struct { HighWaterMark uint64 }`. -/
structure ParameterMopHighWaterMark where
  HighWaterMark : Nat
  deriving DecidableEq

/-- Go `func (dst *ParameterMopHighWaterMark) Decode(src []byte) error`. -/
def ParameterMopHighWaterMark.Decode (dst : ParameterMopHighWaterMark) (src : List Byte) :
    Outcome ParameterMopHighWaterMark :=
  let buf := NewBuffer src
  if buf.Len < 8 then
    .ret dst (some (.invalidMessageFormat ⟨"NotificationResponse", "too short"⟩))
  else
    match BigEndianUint64 (buf.Next 8).1 with
    | none => .panic
    | some v => .ret { dst with HighWaterMark := v } none

/-- Go `func (src *ParameterMopHighWaterMark) Encode(dst []byte) []byte`. -/
def ParameterMopHighWaterMark.Encode (src : ParameterMopHighWaterMark) (dst : List Byte) :
    List Byte :=
  let dst := dst ++ [(107 : Byte)] -- the tag byte k
  let dst := AppendUint64 dst src.HighWaterMark
  dst

/-! ## WroteXlog (`wrote_xlog.go`) -/

/-- Go `type WroteXlog struct { value byte }`. -/
structure WroteXlog where
  value : Byte
  deriving DecidableEq

/-- Go `func (dst *WroteXlog) Decode(src []byte) (err error)`. -/
def WroteXlog.Decode (dst : WroteXlog) (src : List Byte) : Outcome WroteXlog :=
  let buf := NewBuffer src
  if buf.Len < 1 then
    .ret dst (some (.invalidMessageFormat ⟨"NotificationResponse", "too short"⟩))
  else
    let r := buf.ReadByte
    let dst := { dst with value := r.1.1 }
    match r.1.2 with
    | some e => .ret dst (some e)
    | none => .ret dst none

/-- Go `func (src *WroteXlog) Encode(dst []byte) []byte`. -/
def WroteXlog.Encode (src : WroteXlog) (dst : List Byte) : List Byte :=
  let dst := dst ++ [(120 : Byte)] -- the tag byte x
  let dst := dst ++ [src.value]
  dst

/-- The anonymous struct handed to `json.Marshal` by `WroteXlog.MarshalJSON`
(its field `Type` is called `TypeName` here, `Type` being reserved). -/
structure WroteXlogDump where
  TypeName : String
  WroteXlog : Byte
  deriving DecidableEq

/-- Go `func (ps WroteXlog) MarshalJSON()`, up to the final `json.Marshal` call. -/
def WroteXlog.MarshalJSON (ps : WroteXlog) : WroteXlogDump :=
  { TypeName := "WroteXlog", WroteXlog := ps.value }

/-- The 4-byte length field of a frame that starts at offset `off`, read the way a
receiver reads it: `binary.BigEndian.Uint32(frame[off+1:])`. -/
def lengthField (frame : List Byte) (off : Nat) : Option Nat :=
  BigEndianUint32 (frame.drop (off + 1))

end Pgproto3

/-!
# pgtype.CompositeFields (`composite_fields.go`)

* A field is a Go `interface{}`: `none` is the nil interface, `some v` a value `v : V`.
* The registry, the encoders, the scanners and the binary builder are code outside the
  file; they are parameters of the embedding.  `CI` is the type of the `*ConnInfo` values
  that are handed on to them.  Whatever they read or mutate (destination slots, the registry
  prototypes that `Set` overwrites) lives in a world `W` that is passed along explicitly:
  an encoder receives `ci` and the world and returns the world it leaves behind.
* The lookup `DataTypeForValue` is by the dynamic type of the value and does not read the
  world: the registry is "read-mostly", its registrations are not changed during a call
  (spec, section 5).
* A `[]byte` argument is a `List Byte`; where the code tests a slice against `nil`
  (`src == nil`, `fieldBuf != nil`, a returned `nil` buffer) it is an `Option (List Byte)`,
  `none` being the nil slice and `some []` the empty non-nil one.
-/

namespace Pgtype

/-- One octet. -/
abbrev Byte := Fin 256

/-- An `error` value: either built by `errors.Errorf(format, args...)` in this file, or
handed back by code outside it (an encoder, `Set`, a scanner, the builder). -/
inductive GoErr (V E : Type) where
  | Errorf (format : String) (args : List (Option V))
  | foreign (e : E)
  deriving DecidableEq

/-- Outcome of a Go call that may abort with a run-time panic instead of returning. -/
inductive Call (α : Type) where
  | ret (a : α)
  | panic
  deriving DecidableEq

/-- Go interface `TextEncoder`: `EncodeText(ci, buf) (newBuf []byte, err error)`, called in
a world and returning the two results together with the world after the call. -/
abbrev TextEncoder (CI V W E : Type) :=
  CI → W → Option (List Byte) → (Option (List Byte) × Option (GoErr V E)) × W

/-- Go interface `BinaryEncoder`: `EncodeBinary(ci, buf) (newBuf []byte, err error)`, called
in a world and returning the two results together with the world after the call. -/
abbrev BinaryEncoder (CI V W E : Type) :=
  CI → W → Option (List Byte) → (Option (List Byte) × Option (GoErr V E)) × W

/-- Go interface `Value` as held in `DataType.Value`: the registry prototype, with its `Set`
method (which overwrites the prototype, part of the world) and the results of the type
assertions `dt.Value.(TextEncoder)` and `dt.Value.(BinaryEncoder)`. -/
structure Value (CI V W E : Type) where
  Set : W → Option V → W × Option (GoErr V E)
  asTextEncoder : Option (TextEncoder CI V W E)
  asBinaryEncoder : Option (BinaryEncoder CI V W E)

/-- Go `DataType`: the fields `Value` and `OID` the file uses. -/
structure DataType (CI V W E : Type) where
  Value : Value CI V W E
  OID : Nat

/-- The method of `*ConnInfo` the file calls: `ci.DataTypeForValue(v)`, a lookup by the
dynamic type of `v`; `none` is the result `ok == false`. -/
structure Registry (CI V W E : Type) where
  DataTypeForValue : CI → Option V → Option (DataType CI V W E)

/-- Dynamic types of the field values: the results of the type assertions
`f.(TextEncoder)` and `f.(BinaryEncoder)` on a non-nil `f`. -/
structure TypeInfo (CI V W E : Type) where
  asTextEncoder : V → Option (TextEncoder CI V W E)
  asBinaryEncoder : V → Option (BinaryEncoder CI V W E)

/-- A composite scanner (`CompositeBinaryScanner` or `CompositeTextScanner`), code outside
the file: its constructor, `ScanValue(f)` (which may write the destination `f`, part of the
world) and `Err()`. -/
structure CompositeScanner (CI V W E S : Type) where
  New : CI → List Byte → S
  ScanValue : S → Option V → W → S × W
  Err : S → Option (GoErr V E)

/-- The `CompositeBinaryBuilder`, code outside the file: `NewCompositeBinaryBuilder`,
`AppendEncoder(oid, enc)` (which runs the encoder, hence returns a world) and `Finish()`. -/
structure CompositeBinaryBuilder (CI V W E B : Type) where
  NewCompositeBinaryBuilder : CI → List Byte → B
  AppendEncoder : B → W → Nat → BinaryEncoder CI V W E → B × W
  Finish : B → Option (List Byte) × Option (GoErr V E)

/-- Go `type CompositeFields []interface{}`. -/
abbrev CompositeFields (V : Type) := List (Option V)

/-- Go `func (cf CompositeFields) DecodeBinary(ci *ConnInfo, src []byte) error`, returning
the error and the world after the call. -/
def DecodeBinary {CI V W E S : Type} (sc : CompositeScanner CI V W E S)
    (cf : CompositeFields V) (ci : CI) (src : Option (List Byte)) (w : W) :
    Option (GoErr V E) × W :=
  if cf.length = 0 then
    (some (.Errorf "cannot decode into empty CompositeFields" []), w)
  else
    match src with
    | none => (some (.Errorf "cannot decode unexpected null into CompositeFields" []), w)
    | some src =>
      let scanner := sc.New ci src
      let r := cf.foldl (fun (acc : S × W) f => sc.ScanValue acc.1 f acc.2) (scanner, w)
      if (sc.Err r.1).isSome then (sc.Err r.1, r.2) else (none, r.2)

/-- Go `func (cf CompositeFields) DecodeText(ci *ConnInfo, src []byte) error`, returning
the error and the world after the call. -/
def DecodeText {CI V W E S : Type} (sc : CompositeScanner CI V W E S)
    (cf : CompositeFields V) (ci : CI) (src : Option (List Byte)) (w : W) :
    Option (GoErr V E) × W :=
  if cf.length = 0 then
    (some (.Errorf "cannot decode into empty CompositeFields" []), w)
  else
    match src with
    | none => (some (.Errorf "cannot decode unexpected null into CompositeFields" []), w)
    | some src =>
      let scanner := sc.New ci src
      let r := cf.foldl (fun (acc : S × W) f => sc.ScanValue acc.1 f acc.2) (scanner, w)
      if (sc.Err r.1).isSome then (sc.Err r.1, r.2) else (none, r.2)

/-- Backslash-escaping of the bytes `"` (34) and `\\` (92). -/
def escapeCompositeField : List Byte → List Byte
  | [] => []
  | b :: rest =>
    if b = 34 ∨ b = 92 then 92 :: b :: escapeCompositeField rest
    else b :: escapeCompositeField rest

/-- ASCII white space: space, tab, line feed, vertical tab, form feed, carriage return. -/
def isWhitespace (b : Byte) : Bool := b = 32 ∨ (9 ≤ b.val ∧ b.val ≤ 13)

/-- Modelled from the spec: `QuoteCompositeFieldIfNeeded` (defined elsewhere in package
`pgtype`, not among the sources). The fragment is wrapped in double quotes, embedded double
quotes and backslashes escaped, "whenever the fragment is empty, or contains any of" the
bytes `(`, `)`, `,`, `"`, `\\`, "or leading/trailing whitespace"; otherwise it is emitted
verbatim. -/
def QuoteCompositeFieldIfNeeded (src : List Byte) : List Byte :=
  if src = [] ∨ src.head?.any isWhitespace = true ∨ src.getLast?.any isWhitespace = true
      ∨ src.any (fun b => b = 40 ∨ b = 41 ∨ b = 44 ∨ b = 34 ∨ b = 92) = true then
    [34] ++ escapeCompositeField src ++ [34]
  else src

/-- Go slice expression `fieldBuf[0:0]`: the nil slice stays nil, any other slice becomes
the empty non-nil slice. -/
def resliceEmpty : Option (List Byte) → Option (List Byte)
  | none => none
  | some _ => some []

/-- Go index assignment `buf[i] = x`: panics (here `none`) unless `0 ≤ i < len(buf)`. -/
def setIndex (buf : List Byte) (i : Int) (x : Byte) : Option (List Byte) :=
  if 0 ≤ i ∧ i < (buf.length : Int) then some (buf.set i.toNat x) else none

/-- The `for _, f := range cf` loop of `EncodeText`, started with the current `buf`,
`fieldBuf` and world: `.error err` is an early `return nil, err`, `.ok buf` the buffer when
the loop ends. -/
def EncodeText.loop {CI V W E : Type} (ty : TypeInfo CI V W E) (reg : Registry CI V W E)
    (ci : CI) :
    List (Option V) → List Byte → Option (List Byte) → W → Except (GoErr V E) (List Byte) × W
  | [], buf, _, w => (.ok buf, w)
  | none :: rest, buf, fieldBuf, w => EncodeText.loop ty reg ci rest (buf ++ [44]) fieldBuf w
  | some f :: rest, buf, fieldBuf, w =>
    let fieldBuf := resliceEmpty fieldBuf
    match ty.asTextEncoder f with
    | some textEncoder =>
      match textEncoder ci w fieldBuf with
      | ((_, some err), w) => (.error err, w)
      | ((fieldBuf, none), w) =>
        let buf := match fieldBuf with
          | some fb => buf ++ QuoteCompositeFieldIfNeeded fb
          | none => buf
        EncodeText.loop ty reg ci rest (buf ++ [44]) fieldBuf w
    | none =>
      match reg.DataTypeForValue ci (some f) with
      | none => (.error (.Errorf "Unknown data type for %#v" [some f]), w)
      | some dt =>
        match dt.Value.Set w (some f) with
        | (w, some err) => (.error err, w)
        | (w, none) =>
          match dt.Value.asTextEncoder with
          | some textEncoder =>
            match textEncoder ci w fieldBuf with
            | ((_, some err), w) => (.error err, w)
            | ((fieldBuf, none), w) =>
              let buf := match fieldBuf with
                | some fb => buf ++ QuoteCompositeFieldIfNeeded fb
                | none => buf
              EncodeText.loop ty reg ci rest (buf ++ [44]) fieldBuf w
          | none => (.error (.Errorf "Cannot encode text format for %v" [some f]), w)

/-- Go `func (cf CompositeFields) EncodeText(ci *ConnInfo, buf []byte) ([]byte, error)`,
returning the pair of results and the world after the call. -/
def EncodeText {CI V W E : Type} (ty : TypeInfo CI V W E) (reg : Registry CI V W E)
    (cf : CompositeFields V) (ci : CI) (buf : List Byte) (w : W) :
    Call ((Option (List Byte) × Option (GoErr V E)) × W) :=
  let buf := buf ++ [(40 : Byte)] -- the byte (
  let fieldBuf : Option (List Byte) := some []
  match EncodeText.loop ty reg ci cf buf fieldBuf w with
  | (.error err, w) => .ret ((none, some err), w)
  | (.ok buf, w) =>
    match setIndex buf ((buf.length : Int) - 1) 41 with -- the byte )
    | none => .panic
    | some buf => .ret ((some buf, none), w)

/-- The `for _, f := range cf` loop of `EncodeBinary`: `.error err` is an early
`return nil, err`, `.ok b` the builder when the loop ends. -/
def EncodeBinary.loop {CI V W E B : Type} (bld : CompositeBinaryBuilder CI V W E B)
    (ty : TypeInfo CI V W E) (reg : Registry CI V W E) (ci : CI) :
    List (Option V) → B → W → Except (GoErr V E) B × W
  | [], b, w => (.ok b, w)
  | f :: rest, b, w =>
    match reg.DataTypeForValue ci f with
    | none => (.error (.Errorf "Unknown OID for %#v" [f]), w)
    | some dt =>
      match f.bind ty.asBinaryEncoder with
      | some binaryEncoder =>
        let r := bld.AppendEncoder b w dt.OID binaryEncoder
        EncodeBinary.loop bld ty reg ci rest r.1 r.2
      | none =>
        match dt.Value.Set w f with
        | (w, some err) => (.error err, w)
        | (w, none) =>
          match dt.Value.asBinaryEncoder with
          | some binaryEncoder =>
            let r := bld.AppendEncoder b w dt.OID binaryEncoder
            EncodeBinary.loop bld ty reg ci rest r.1 r.2
          | none => (.error (.Errorf "Cannot encode binary format for %v" [f]), w)

/-- Go `func (cf CompositeFields) EncodeBinary(ci *ConnInfo, buf []byte) ([]byte, error)`,
returning the pair of results and the world after the call. -/
def EncodeBinary {CI V W E B : Type} (bld : CompositeBinaryBuilder CI V W E B)
    (ty : TypeInfo CI V W E) (reg : Registry CI V W E) (cf : CompositeFields V) (ci : CI)
    (buf : List Byte) (w : W) : (Option (List Byte) × Option (GoErr V E)) × W :=
  let b := bld.NewCompositeBinaryBuilder ci buf
  match EncodeBinary.loop bld ty reg ci cf b w with
  | (.error err, w) => ((none, some err), w)
  | (.ok b, w) => (bld.Finish b, w)

/-! ## Reference definition of the composite text format (spec 4.3 and 4.4) -/

/-- Capability Dispatch for one non-null field, after the spec: "try the value's own
capability first, then fall back to resolve + set + descriptor capability"; the result is
the text fragment written into `buffer` (`none` for a null fragment) or the error. -/
def dispatchText {CI V W E : Type} (ty : TypeInfo CI V W E) (reg : Registry CI V W E)
    (ci : CI) (f : V) (buffer : Option (List Byte)) (w : W) :
    Except (GoErr V E) (Option (List Byte)) × W :=
  match ty.asTextEncoder f with
  | some own =>
    match own ci w buffer with
    | ((_, some err), w) => (.error err, w)
    | ((fragment, none), w) => (.ok fragment, w)
  | none =>
    match reg.DataTypeForValue ci (some f) with
    | none => (.error (.Errorf "Unknown data type for %#v" [some f]), w)
    | some dt =>
      match dt.Value.Set w (some f) with
      | (w, some err) => (.error err, w)
      | (w, none) =>
        match dt.Value.asTextEncoder with
        | none => (.error (.Errorf "Cannot encode text format for %v" [some f]), w)
        | some descriptor =>
          match descriptor ci w buffer with
          | ((_, some err), w) => (.error err, w)
          | ((fragment, none), w) => (.ok fragment, w)

/-- The text fragments of the fields in positional order, or the first error. A nil field
has the null fragment `none`. The buffer handed to a field's encoder is the one
`EncodeText` hands it: the fragment of the last non-nil field before it, re-sliced to
length 0 (`scratch`; nil once that fragment was nil). -/
def textFragments {CI V W E : Type} (ty : TypeInfo CI V W E) (reg : Registry CI V W E)
    (ci : CI) :
    List (Option V) → Option (List Byte) → W →
      Except (GoErr V E) (List (Option (List Byte))) × W
  | [], _, w => (.ok [], w)
  | none :: rest, scratch, w =>
    match textFragments ty reg ci rest scratch w with
    | (.error err, w) => (.error err, w)
    | (.ok frs, w) => (.ok (none :: frs), w)
  | some f :: rest, scratch, w =>
    match dispatchText ty reg ci f (resliceEmpty scratch) w with
    | (.error err, w) => (.error err, w)
    | (.ok fragment, w) =>
      match textFragments ty reg ci rest fragment w with
      | (.error err, w) => (.error err, w)
      | (.ok frs, w) => (.ok (fragment :: frs), w)

/-- The slot of one field, after the spec: "null is represented by an empty, unquoted slot",
any other fragment is "subjected to a quoting rule". -/
def textSlot : Option (List Byte) → List Byte
  | none => []
  | some fragment => QuoteCompositeFieldIfNeeded fragment

/-- Reference composite text, after the spec: "wraps output in ( ... ), fields
comma-separated, in positional order", appended to `buf`. -/
def compositeText (buf : List Byte) (fragments : List (Option (List Byte))) : List Byte :=
  buf ++ [(40 : Byte)] ++ List.intercalate [(44 : Byte)] (fragments.map textSlot)
    ++ [(41 : Byte)]

/-! ## A small concrete registry, used to instantiate the theorems -/

/-- Sample field values: a Go `int`, a Go `string`, a `pgtype.Text`-like value that is its
own encoder (`none` being SQL NULL), and a `CompositeFields` value holding Go integers,
which is a text encoder through its own `EncodeText` method. -/
inductive SampleValue where
  | int (n : Nat)
  | str (s : List Byte)
  | text (s : Option (List Byte))
  | composite (ints : List Nat)
  deriving DecidableEq

/-- Sample world: the states of the registry prototypes for integers and text. -/
structure SampleWorld where
  int4 : Nat
  text : List Byte
  deriving DecidableEq

/-- Sample `*ConnInfo`: Go strings are always registered, Go integers when `ints` is set. -/
structure SampleConnInfo where
  ints : Bool
  deriving DecidableEq

/-- Go `append(buf, s...)`: appending nothing to the nil slice yields the nil slice. -/
def goAppend (buf : Option (List Byte)) (s : List Byte) : Option (List Byte) :=
  match buf, s with
  | none, [] => none
  | none, s => some s
  | some b, s => some (b ++ s)

/-- Decimal digits of a natural number, as ASCII bytes. -/
def decimal (n : Nat) : List Byte :=
  (Nat.toDigits 10 n).map (fun c => Pgproto3.toByte c.toNat)

/-- Sample data type for Go integers: `Set` stores the integer in the prototype. -/
def sampleInt4 : DataType SampleConnInfo SampleValue SampleWorld Unit where
  OID := 23
  Value :=
    { Set := fun w f =>
        match f with
        | some (.int n) => ({ w with int4 := n }, none)
        | _ => (w, some (.foreign ()))
      asTextEncoder := some (fun _ w buf => ((goAppend buf (decimal w.int4), none), w))
      asBinaryEncoder := none }

/-- Sample data type for Go strings: `Set` stores the string in the prototype. -/
def sampleText : DataType SampleConnInfo SampleValue SampleWorld Unit where
  OID := 25
  Value :=
    { Set := fun w f =>
        match f with
        | some (.str s) => ({ w with text := s }, none)
        | _ => (w, some (.foreign ()))
      asTextEncoder := some (fun _ w buf => ((goAppend buf w.text, none), w))
      asBinaryEncoder := some (fun _ w buf => ((goAppend buf w.text, none), w)) }

/-- Sample registry lookup: resolves Go strings, and Go integers when `ci.ints` is set;
nothing else (not nil, not `text`, not `composite`). -/
def sampleRegistry : Registry SampleConnInfo SampleValue SampleWorld Unit where
  DataTypeForValue
    | ci, some (.int _) => if ci.ints then some sampleInt4 else none
    | _, some (.str _) => some sampleText
    | _, _ => none

/-- Sample registry value in which Go integers are registered. -/
def sampleConnInfo : SampleConnInfo := ⟨true⟩

/-- Sample type assertions for the fields inside a `composite` value: only `text` values
are encoders themselves. -/
def sampleLeafTypes : TypeInfo SampleConnInfo SampleValue SampleWorld Unit where
  asTextEncoder
    | .text none => some (fun _ w _ => ((none, none), w))
    | .text (some s) => some (fun _ w buf => ((goAppend buf s, none), w))
    | _ => none
  asBinaryEncoder
    | .text none => some (fun _ w _ => ((none, none), w))
    | .text (some s) => some (fun _ w buf => ((goAppend buf s, none), w))
    | _ => none

/-- The method `CompositeFields.EncodeText` of the value `composite ints`, seen as a
`TextEncoder`: it runs `EncodeText` on the integers with the `ci` it is handed. (The
`panic` branch is never taken; it only makes the function total.) -/
def sampleCompositeEncoder (ints : List Nat) :
    TextEncoder SampleConnInfo SampleValue SampleWorld Unit :=
  fun ci w buf =>
    match EncodeText sampleLeafTypes sampleRegistry
        (ints.map (fun n => some (SampleValue.int n))) ci (buf.getD []) w with
    | .ret r => r
    | .panic => ((none, none), w)

/-- Sample type assertions: `text` and `composite` values are text encoders themselves. -/
def sampleTypes : TypeInfo SampleConnInfo SampleValue SampleWorld Unit where
  asTextEncoder
    | .text none => some (fun _ w _ => ((none, none), w))
    | .text (some s) => some (fun _ w buf => ((goAppend buf s, none), w))
    | .composite ints => some (sampleCompositeEncoder ints)
    | _ => none
  asBinaryEncoder
    | .text none => some (fun _ w _ => ((none, none), w))
    | .text (some s) => some (fun _ w buf => ((goAppend buf s, none), w))
    | _ => none

/-- Sample scanner that records nothing and never fails. -/
def sampleScanner : CompositeScanner SampleConnInfo SampleValue SampleWorld Unit Unit where
  New := fun _ _ => ()
  ScanValue := fun s _ w => (s, w)
  Err := fun _ => none

/-- Sample builder: keeps `ci` and collects the encoded fields in a list, `Finish` hands
them back. -/
def sampleBuilder :
    CompositeBinaryBuilder SampleConnInfo SampleValue SampleWorld Unit
      (SampleConnInfo × List Byte) where
  NewCompositeBinaryBuilder := fun ci buf => (ci, buf)
  AppendEncoder := fun b w _ enc =>
    ((b.1, b.2 ++ ((enc b.1 w (some [])).1.1).getD []), (enc b.1 w (some [])).2)
  Finish := fun b => (some b.2, none)

end Pgtype

namespace Pgproto3

/-! ## Facts about the helpers -/

theorem IndexByte_ge (l : List Byte) (c : Byte) : -1 ≤ IndexByte l c := by
  induction l with
  | nil => simp [IndexByte]
  | cons x xs ih =>
    simp only [IndexByte]
    split
    · omega
    · split <;> omega

theorem IndexByte_lt (l : List Byte) (c : Byte) : IndexByte l c < (l.length : Int) := by
  induction l with
  | nil => simp [IndexByte]
  | cons x xs ih =>
    simp only [IndexByte, List.length_cons, Nat.cast_add, Nat.cast_one]
    split
    · omega
    · split <;> omega

theorem IndexByte_eq_neg_one_iff (l : List Byte) (c : Byte) : IndexByte l c = -1 ↔ c ∉ l := by
  induction l with
  | nil => simp [IndexByte]
  | cons x xs ih =>
    have hge := IndexByte_ge xs c
    simp only [IndexByte, List.mem_cons, not_or]
    by_cases hx : x = c
    · subst hx
      simp
    · have hx2 : ¬ c = x := fun h => hx h.symm
      simp only [hx, if_false, hx2, not_false_eq_true, true_and]
      rw [← ih]
      split
      · simp [*]
      · constructor
        · intro h; omega
        · intro h; contradiction

theorem IndexByte_cons (x : Byte) (xs : List Byte) (c : Byte) :
    IndexByte (x :: xs) c =
      if x = c then 0 else if IndexByte xs c = -1 then -1 else IndexByte xs c + 1 := by
  simp [IndexByte]

theorem IndexByte_eq_last_iff (s : List Byte) (b c : Byte) :
    IndexByte (s ++ [b]) c = (s.length : Int) ↔ b = c ∧ c ∉ s := by
  induction s with
  | nil =>
    rw [List.nil_append, IndexByte_cons]
    by_cases hb : b = c <;> simp [hb, IndexByte]
  | cons x xs ih =>
    have hge := IndexByte_ge (xs ++ [b]) c
    rw [List.cons_append, IndexByte_cons]
    simp only [List.length_cons, Nat.cast_add, Nat.cast_one, List.mem_cons, not_or]
    by_cases hx : x = c
    · subst hx
      simp only [if_true, not_true_eq_false, false_and, and_false, iff_false]
      omega
    · have hx2 : ¬ c = x := fun h => hx h.symm
      simp only [hx, if_false, hx2, not_false_eq_true, true_and]
      rw [← ih]
      generalize IndexByte (xs ++ [b]) c = r at hge
      have hn : (0 : Int) ≤ (xs.length : Int) := Int.natCast_nonneg _
      generalize (xs.length : Int) = n at hn
      split <;> constructor <;> intro h <;> omega

theorem IndexByte_append_terminator (s : List Byte) (c : Byte) (h : c ∉ s) :
    IndexByte (s ++ [c]) c = (s.length : Int) :=
  (IndexByte_eq_last_iff s c c).2 ⟨rfl, h⟩

theorem MPPQuery_Encode_eq (m : MPPQuery) (dst : List Byte) :
    m.Encode dst =
      dst ++ ((87 : Byte) :: (AppendInt32 [] (int32 (4 + (m.String.length : Int) + 1))
        ++ (m.String ++ [(0 : Byte)]))) := by
  simp [MPPQuery.Encode, AppendInt32, AppendUint32]

theorem AppendInt32_nil_length (n : Int) : (AppendInt32 [] n).length = 4 := by
  simp [AppendInt32, AppendUint32]

theorem MPPQuery_Encode_payload (m : MPPQuery) (dst : List Byte) :
    (m.Encode dst).drop (dst.length + 5) = m.String ++ [(0 : Byte)] := by
  rw [MPPQuery_Encode_eq, List.drop_append]
  simp [AppendInt32, AppendUint32]

theorem MPPQuery_Decode_terminated (d : MPPQuery) (s : List Byte) (h : (0 : Byte) ∉ s) :
    d.Decode (s ++ [(0 : Byte)]) = .ret { d with String := s } none := by
  have hi := IndexByte_append_terminator s 0 h
  simp [MPPQuery.Decode, hi, sliceTo]

/-! ## MPPQuery -/

/-- C1: for every buffer `dst`, every message `m` whose `String` has no zero byte and every
destination `d`, decoding the bytes of `m.Encode dst` that follow the first `len(dst)+5`
returns `nil` and leaves the destination holding `m.String`. -/
theorem mppQuery_roundtrip (dst : List Byte) (m d : MPPQuery) (h : (0 : Byte) ∉ m.String) :
    d.Decode ((m.Encode dst).drop (dst.length + 5)) = .ret { d with String := m.String } none := by
  rw [MPPQuery_Encode_payload]
  exact MPPQuery_Decode_terminated d m.String h

/-- Instance of C1: the string with bytes `[83, 69, 76]`, framed after the buffer `[1, 2]`. -/
theorem mppQuery_roundtrip_witness :
    (0 : Byte) ∉ (MPPQuery.mk [83, 69, 76]).String ∧
    (MPPQuery.mk [9]).Decode (((MPPQuery.mk [83, 69, 76]).Encode [1, 2]).drop (2 + 5))
      = .ret ⟨[83, 69, 76]⟩ none :=
  ⟨by decide, mppQuery_roundtrip [1, 2] ⟨[83, 69, 76]⟩ ⟨[9]⟩ (by decide)⟩

theorem uint32_int32 (n : Nat) : uint32 (int32 (n : Int)) = n % 2 ^ 32 := by
  unfold uint32 int32
  omega

theorem BigEndianUint32_AppendUint32 (n : Nat) (rest : List Byte) :
    BigEndianUint32 (AppendUint32 [] n ++ rest) = some (n % 2 ^ 32) := by
  simp only [AppendUint32, List.nil_append, List.cons_append, BigEndianUint32, toByte,
    Option.some.injEq]
  omega

theorem MPPQuery_lengthField (m : MPPQuery) (dst : List Byte) :
    lengthField (m.Encode dst) dst.length = some ((4 + m.String.length + 1) % 2 ^ 32) := by
  have hd : (m.Encode dst).drop (dst.length + 1) =
      AppendUint32 [] ((4 + m.String.length + 1) % 2 ^ 32) ++ (m.String ++ [(0 : Byte)]) := by
    have hc : (4 + (m.String.length : Int) + 1) = ((4 + m.String.length + 1 : Nat) : Int) := by
      push_cast; ring
    rw [MPPQuery_Encode_eq, List.drop_append, AppendInt32, hc, uint32_int32]
    simp
  rw [lengthField, hd, BigEndianUint32_AppendUint32]
  simp

theorem MPPQuery_Encode_length (m : MPPQuery) (dst : List Byte) :
    (m.Encode dst).length = dst.length + (1 + 4 + m.String.length + 1) := by
  rw [MPPQuery_Encode_eq]
  simp [AppendInt32_nil_length]
  omega

/-- C2, as the claim words it, fails: for the string made of `2^32 - 5` bytes of value `1`
the frame built on the empty buffer has length field `0`, while `4 + len(s) + 1 = 2^32`. -/
theorem mppQuery_lengthField_wraps :
    lengthField ((MPPQuery.mk (List.replicate 4294967291 1)).Encode []) ([] : List Byte).length
        = some 0 ∧
    lengthField ((MPPQuery.mk (List.replicate 4294967291 1)).Encode []) ([] : List Byte).length
        ≠ some (4 + (MPPQuery.mk (List.replicate 4294967291 1)).String.length + 1) := by
  have hlen : (MPPQuery.mk (List.replicate 4294967291 (1 : Byte))).String.length = 4294967291 :=
    List.length_replicate _ _
  have h := MPPQuery_lengthField (MPPQuery.mk (List.replicate 4294967291 1)) []
  rw [hlen] at h
  rw [h, hlen]
  constructor <;> norm_num

/-- C2 (amended): for every `dst` and every string `s` with `4 + len(s) + 1 < 2^32`,
`Encode(dst)` is `dst`, the tag `W`, the four big-endian bytes of `4 + len(s) + 1`, the bytes
of `s` and one zero byte; the length field reads back as `4 + len(s) + 1`, and the number of
appended bytes is `1 +` that declared length. -/
theorem mppQuery_encode_layout (dst s : List Byte) (h : 4 + s.length + 1 < 2 ^ 32) :
    (MPPQuery.mk s).Encode dst =
        dst ++ [(87 : Byte)]
          ++ [toByte ((4 + s.length + 1) / 2 ^ 24), toByte ((4 + s.length + 1) / 2 ^ 16),
              toByte ((4 + s.length + 1) / 2 ^ 8), toByte (4 + s.length + 1)]
          ++ s ++ [(0 : Byte)] ∧
    lengthField ((MPPQuery.mk s).Encode dst) dst.length = some (4 + s.length + 1) ∧
    ((MPPQuery.mk s).Encode dst).length = dst.length + (1 + (4 + s.length + 1)) := by
  refine ⟨?_, ?_, ?_⟩
  · have hc : (4 + (s.length : Int) + 1) = ((4 + s.length + 1 : Nat) : Int) := by
      push_cast; ring
    rw [MPPQuery_Encode_eq, AppendInt32, hc, uint32_int32, Nat.mod_eq_of_lt h]
    simp [AppendUint32]
  · rw [MPPQuery_lengthField, Nat.mod_eq_of_lt h]
  · rw [MPPQuery_Encode_length]
    simp only [List.length]
    omega

/-- Instance of C2 (amended): the two-byte string `[104, 105]` appended to `[7]`. -/
theorem mppQuery_encode_layout_witness :
    4 + ([104, 105] : List Byte).length + 1 < 2 ^ 32 ∧
    (MPPQuery.mk [104, 105]).Encode [7] = [7, 87, 0, 0, 0, 7, 104, 105, 0] ∧
    lengthField ((MPPQuery.mk [104, 105]).Encode [7]) 1 = some 7 ∧
    ((MPPQuery.mk [104, 105]).Encode [7]).length = 1 + (1 + 7) := by
  have h := mppQuery_encode_layout [7] [104, 105] (by decide)
  exact ⟨by decide, by decide, h.2.1, h.2.2⟩

theorem MPPQuery_Decode_snoc (d : MPPQuery) (s : List Byte) (b : Byte) :
    d.Decode (s ++ [b]) =
      if b = 0 ∧ (0 : Byte) ∉ s then .ret { d with String := s } none
      else .ret d (some (.invalidMessageFormat ⟨"MPPQuery", ""⟩)) := by
  have hi := IndexByte_eq_last_iff s b 0
  by_cases hc : b = 0 ∧ (0 : Byte) ∉ s
  · obtain ⟨hb, hs⟩ := hc
    subst hb
    rw [MPPQuery_Decode_terminated d s hs]
    simp [hs]
  · have h1 : ¬ IndexByte (s ++ [b]) 0 = (s.length : Int) := fun e => hc (hi.1 e)
    simp only [MPPQuery.Decode, List.length_append, List.length_singleton, Nat.cast_add,
      Nat.cast_one, add_sub_cancel_right, ne_eq, h1, not_false_eq_true, if_true, hc, if_false]

theorem MPPQuery_Decode_nil (d : MPPQuery) : d.Decode [] = .panic := by
  simp [MPPQuery.Decode, IndexByte, sliceTo]

/-- C3: for every non-empty payload `src`, `Decode` returns `nil` exactly when the last byte
of `src` is zero and no earlier byte is; on success the destination holds `src` without its
last byte, and otherwise the call returns the malformed-message error of kind `MPPQuery`. -/
theorem mppQuery_decode_accepts_iff (d : MPPQuery) (src : List Byte) (hne : src ≠ []) :
    ((d.Decode src).isSuccess = true ↔ (src.getLast hne = 0 ∧ (0 : Byte) ∉ src.dropLast)) ∧
    ((d.Decode src).isSuccess = true →
      d.Decode src = .ret { d with String := src.dropLast } none) ∧
    ((d.Decode src).isSuccess = false →
      d.Decode src = .ret d (some (.invalidMessageFormat ⟨"MPPQuery", ""⟩))) := by
  have hsplit := List.dropLast_append_getLast hne
  have hdec : d.Decode src = d.Decode (src.dropLast ++ [src.getLast hne]) := by rw [hsplit]
  rw [hdec, MPPQuery_Decode_snoc]
  by_cases hc : src.getLast hne = 0 ∧ (0 : Byte) ∉ src.dropLast
  · simp [hc, Outcome.isSuccess]
  · simp [hc, Outcome.isSuccess]

/-- Instance of C3: the non-empty payload `[104, 105, 0]` is accepted and yields `[104, 105]`. -/
theorem mppQuery_decode_accepts_iff_witness :
    ([104, 105, 0] : List Byte) ≠ [] ∧
    (MPPQuery.mk []).Decode [104, 105, 0] = .ret ⟨[104, 105]⟩ none :=
  ⟨by decide,
    (mppQuery_decode_accepts_iff ⟨[]⟩ [104, 105, 0] (by decide)).2.1 (by decide)⟩

/-- C4 fails on the code: on the zero-length payload `IndexByte` yields `-1`, which equals
`len(src) - 1`, so the guard is passed and the slice `src[:-1]` aborts the call. -/
theorem mppQuery_decode_empty_panics (d : MPPQuery) :
    IndexByte [] 0 = (([] : List Byte).length : Int) - 1 ∧
    sliceTo [] (IndexByte [] 0) = none ∧
    d.Decode [] = .panic := by
  refine ⟨by decide, by decide, ?_⟩
  simp [MPPQuery.Decode, IndexByte, sliceTo]

/-! ## ParameterMopHighWaterMark and WroteXlog -/

theorem PMHWM_Encode_eq (m : ParameterMopHighWaterMark) (dst : List Byte) :
    m.Encode dst = dst ++ ((107 : Byte) :: AppendUint64 [] m.HighWaterMark) := by
  simp [ParameterMopHighWaterMark.Encode, AppendUint64]

theorem BigEndianUint64_AppendUint64 (n : Nat) (rest : List Byte) :
    BigEndianUint64 (AppendUint64 [] n ++ rest) = some (n % 2 ^ 64) := by
  simp only [AppendUint64, List.nil_append, List.cons_append, BigEndianUint64, toByte,
    Option.some.injEq]
  omega

theorem PMHWM_Encode_payload (m : ParameterMopHighWaterMark) (dst : List Byte) :
    (m.Encode dst).drop (dst.length + 1) = AppendUint64 [] m.HighWaterMark := by
  rw [PMHWM_Encode_eq, List.drop_append]
  simp

theorem BigEndianUint64_isSome (l : List Byte) (h : 8 ≤ l.length) :
    ∃ v, BigEndianUint64 (l.take 8) = some v ∧ v < 2 ^ 64 := by
  match l, h with
  | b0 :: b1 :: b2 :: b3 :: b4 :: b5 :: b6 :: b7 :: rest, _ =>
    refine ⟨_, rfl, ?_⟩
    have := b0.isLt; have := b1.isLt; have := b2.isLt; have := b3.isLt
    have := b4.isLt; have := b5.isLt; have := b6.isLt; have := b7.isLt
    omega

/-- C5: for every 64-bit value `v`, every buffer `dst` and every destination `d`, decoding
the 8 bytes that `Encode` appends after the tag byte returns `nil` and stores `v`. -/
theorem pmhwm_roundtrip (v : Nat) (hv : v < 2 ^ 64) (dst : List Byte)
    (d : ParameterMopHighWaterMark) :
    (((ParameterMopHighWaterMark.mk v).Encode dst).drop (dst.length + 1)).length = 8 ∧
    d.Decode (((ParameterMopHighWaterMark.mk v).Encode dst).drop (dst.length + 1))
      = .ret { d with HighWaterMark := v } none := by
  rw [PMHWM_Encode_payload]
  refine ⟨by simp [AppendUint64], ?_⟩
  have hb := BigEndianUint64_AppendUint64 v []
  rw [List.append_nil, Nat.mod_eq_of_lt hv] at hb
  have ht : (AppendUint64 [] v).take 8 = AppendUint64 [] v := by simp [AppendUint64]
  simp only [ParameterMopHighWaterMark.Decode, NewBuffer, Buffer.Len, Buffer.Next, ht, hb]
  simp [AppendUint64]

/-- Instance of C5: the value `300`. -/
theorem pmhwm_roundtrip_witness :
    300 < 2 ^ 64 ∧
    (ParameterMopHighWaterMark.mk 0).Decode
      (((ParameterMopHighWaterMark.mk 300).Encode []).drop (0 + 1)) = .ret ⟨300⟩ none :=
  ⟨by decide, (pmhwm_roundtrip 300 (by decide) [] ⟨0⟩).2⟩

/-- C6: for every `dst` and every value `v`, `Encode(dst)` is `dst`, the tag byte `k`, then
the 8 big-endian bytes of `v` (which read back as `v mod 2^64`), and nothing else: 9 bytes
are appended. -/
theorem pmhwm_encode_layout (v : Nat) (dst : List Byte) :
    (ParameterMopHighWaterMark.mk v).Encode dst =
        dst ++ [(107 : Byte)]
          ++ [toByte (v / 2 ^ 56), toByte (v / 2 ^ 48), toByte (v / 2 ^ 40), toByte (v / 2 ^ 32),
              toByte (v / 2 ^ 24), toByte (v / 2 ^ 16), toByte (v / 2 ^ 8), toByte v] ∧
    BigEndianUint64 (((ParameterMopHighWaterMark.mk v).Encode dst).drop (dst.length + 1))
        = some (v % 2 ^ 64) ∧
    ((ParameterMopHighWaterMark.mk v).Encode dst).length = dst.length + 9 := by
  refine ⟨by simp [ParameterMopHighWaterMark.Encode, AppendUint64], ?_, ?_⟩
  · rw [PMHWM_Encode_payload]
    have hb := BigEndianUint64_AppendUint64 v []
    rwa [List.append_nil] at hb
  · simp [ParameterMopHighWaterMark.Encode, AppendUint64]

theorem PMHWM_Decode_short (p : ParameterMopHighWaterMark) (src : List Byte)
    (h : src.length < 8) :
    p.Decode src =
      .ret p (some (.invalidMessageFormat ⟨"NotificationResponse", "too short"⟩)) := by
  simp [ParameterMopHighWaterMark.Decode, NewBuffer, Buffer.Len, h]

theorem PMHWM_Decode_long (p : ParameterMopHighWaterMark) (src : List Byte)
    (h : 8 ≤ src.length) :
    ∃ v, BigEndianUint64 (src.take 8) = some v ∧ v < 2 ^ 64 ∧
      p.Decode src = .ret { p with HighWaterMark := v } none := by
  obtain ⟨v, hv, hlt⟩ := BigEndianUint64_isSome src h
  refine ⟨v, hv, hlt, ?_⟩
  have hn : ¬ src.length < 8 := by omega
  simp [ParameterMopHighWaterMark.Decode, NewBuffer, Buffer.Len, Buffer.Next, hn, hv]

theorem WroteXlog_Decode_cons (w : WroteXlog) (b : Byte) (rest : List Byte) :
    w.Decode (b :: rest) = .ret { w with value := b } none := by
  simp [WroteXlog.Decode, NewBuffer, Buffer.Len, Buffer.ReadByte]

theorem WroteXlog_Decode_nil (w : WroteXlog) :
    w.Decode [] =
      .ret w (some (.invalidMessageFormat ⟨"NotificationResponse", "too short"⟩)) := by
  simp [WroteXlog.Decode, NewBuffer, Buffer.Len]

/-- C7: `ParameterMopHighWaterMark.Decode` returns the malformed-message error exactly on
payloads of fewer than 8 bytes and `WroteXlog.Decode` exactly on the empty payload; every
other payload is accepted, and the outcome depends only on the first 8 (resp. 1) bytes. -/
theorem fixed_size_decode_rejects_exactly_short (p : ParameterMopHighWaterMark)
    (w : WroteXlog) (src : List Byte) :
    ((p.Decode src).isMalformed = true ↔ src.length < 8) ∧
    ((p.Decode src).isSuccess = true ↔ 8 ≤ src.length) ∧
    p.Decode src = p.Decode (src.take 8) ∧
    ((w.Decode src).isMalformed = true ↔ src.length = 0) ∧
    ((w.Decode src).isSuccess = true ↔ 1 ≤ src.length) ∧
    w.Decode src = w.Decode (src.take 1) := by
  have hp : ((p.Decode src).isMalformed = true ↔ src.length < 8) ∧
      ((p.Decode src).isSuccess = true ↔ 8 ≤ src.length) ∧
      p.Decode src = p.Decode (src.take 8) := by
    by_cases h : src.length < 8
    · have ht : src.take 8 = src := List.take_of_length_le (by omega)
      rw [ht, PMHWM_Decode_short p src h]
      simp only [Outcome.isMalformed, Outcome.isSuccess, true_iff, and_true]
      exact ⟨h, by simp; omega⟩
    · have h8 : 8 ≤ src.length := by omega
      obtain ⟨v, hv, _, hd⟩ := PMHWM_Decode_long p src h8
      obtain ⟨v2, hv2, _, hd2⟩ := PMHWM_Decode_long p (src.take 8) (by simp [h8])
      rw [List.take_take] at hv2
      simp only [min_self] at hv2
      rw [hv] at hv2
      cases hv2
      rw [hd, hd2]
      simp only [Outcome.isMalformed, Outcome.isSuccess, true_iff, and_true]
      exact ⟨by simp; omega, h8⟩
  have hw : ((w.Decode src).isMalformed = true ↔ src.length = 0) ∧
      ((w.Decode src).isSuccess = true ↔ 1 ≤ src.length) ∧
      w.Decode src = w.Decode (src.take 1) := by
    cases src with
    | nil => simp [WroteXlog_Decode_nil, Outcome.isMalformed, Outcome.isSuccess]
    | cons b rest =>
      simp [WroteXlog_Decode_cons, Outcome.isMalformed, Outcome.isSuccess]
  exact ⟨hp.1, hp.2.1, hp.2.2, hw.1, hw.2.1, hw.2.2⟩

/-- C8: for every payload `src` with at least one byte, the byte read by `ReadByte` comes
with a nil error, `Decode` returns `nil`, and the stored value, the one `MarshalJSON` reports
as `WroteXlog`, is `src[0]`. -/
theorem wroteXlog_decode_nonempty (w : WroteXlog) (src : List Byte) (hne : src ≠ []) :
    (NewBuffer src).ReadByte.1 = (src.head hne, none) ∧
    w.Decode src = .ret { w with value := src.head hne } none ∧
    ∀ w2, w.Decode src = .ret w2 none → w2.MarshalJSON.WroteXlog = src.head hne := by
  cases src with
  | nil => exact absurd rfl hne
  | cons b rest =>
    refine ⟨rfl, WroteXlog_Decode_cons w b rest, ?_⟩
    intro w2 h2
    rw [WroteXlog_Decode_cons] at h2
    cases h2
    rfl

/-- Instance of C8: the payload `[5]` yields the value `5`. -/
theorem wroteXlog_decode_nonempty_witness :
    ([5] : List Byte) ≠ [] ∧ (WroteXlog.mk 0).Decode [5] = .ret ⟨5⟩ none ∧
    (WroteXlog.mk 5).MarshalJSON = ⟨"WroteXlog", 5⟩ :=
  ⟨by decide, (wroteXlog_decode_nonempty ⟨0⟩ [5] (by decide)).2.1, rfl⟩

/-- C9: for every `dst` and every byte `b`, `Encode(dst)` is `dst` followed by exactly the
two bytes `x` and `b`, and decoding the one payload byte after the tag returns `nil` and
recovers `b`. -/
theorem wroteXlog_encode_roundtrip (b : Byte) (dst : List Byte) (d : WroteXlog) :
    (WroteXlog.mk b).Encode dst = dst ++ [(120 : Byte), b] ∧
    ((WroteXlog.mk b).Encode dst).length = dst.length + 2 ∧
    ((WroteXlog.mk b).Encode dst).drop (dst.length + 1) = [b] ∧
    d.Decode (((WroteXlog.mk b).Encode dst).drop (dst.length + 1))
      = .ret { d with value := b } none := by
  have he : (WroteXlog.mk b).Encode dst = dst ++ [(120 : Byte), b] := by
    simp [WroteXlog.Encode]
  have hd : ((WroteXlog.mk b).Encode dst).drop (dst.length + 1) = [b] := by
    rw [he, List.drop_append]
    simp
  refine ⟨he, by simp [he], hd, ?_⟩
  rw [hd, WroteXlog_Decode_cons]

/-- C10 fails on the code: for the value `300` and the empty buffer `Encode` appends 9 bytes,
the tag `k` directly followed by the 8 value bytes; the four bytes after the tag read as `0`,
not as a message length, and the frame is 4 bytes shorter than tag, length and payload. -/
theorem pmhwm_encode_has_no_length_field :
    (ParameterMopHighWaterMark.mk 300).Encode [] = [107, 0, 0, 0, 0, 0, 0, 1, 44] ∧
    lengthField ((ParameterMopHighWaterMark.mk 300).Encode []) 0 = some 0 ∧
    ((ParameterMopHighWaterMark.mk 300).Encode []).length ≠ 1 + 4 + 8 := by
  decide

/-! ## Failure behaviour of the three decoders -/

/-- C11: for each of the three messages, every destination state and every payload, when
`Decode` returns a non-nil error the destination after the call equals the destination
before the call. -/
theorem decode_atomic_on_failure (m : MPPQuery) (p : ParameterMopHighWaterMark)
    (w : WroteXlog) (src : List Byte) :
    (∀ m2 e, m.Decode src = .ret m2 (some e) → m2 = m) ∧
    (∀ p2 e, p.Decode src = .ret p2 (some e) → p2 = p) ∧
    (∀ w2 e, w.Decode src = .ret w2 (some e) → w2 = w) := by
  refine ⟨?_, ?_, ?_⟩
  · intro m2 e h
    cases src using List.reverseRecOn with
    | nil =>
      rw [MPPQuery_Decode_nil m] at h
      cases h
    | append_singleton s b =>
      rw [MPPQuery_Decode_snoc] at h
      split at h
      · cases h
      · cases h
        rfl
  · intro p2 e h
    by_cases hl : src.length < 8
    · rw [PMHWM_Decode_short p src hl] at h
      cases h
      rfl
    · obtain ⟨v, _, _, hd⟩ := PMHWM_Decode_long p src (by omega)
      rw [hd] at h
      cases h
  · intro w2 e h
    cases src with
    | nil =>
      rw [WroteXlog_Decode_nil] at h
      cases h
      rfl
    | cons b rest =>
      rw [WroteXlog_Decode_cons] at h
      cases h

/-- Instance of C11: the three decoders on payloads they reject. -/
theorem decode_atomic_on_failure_witness :
    (MPPQuery.mk [7]).Decode [1, 0, 2]
      = .ret ⟨[7]⟩ (some (.invalidMessageFormat ⟨"MPPQuery", ""⟩)) ∧
    (∀ p2 e, (ParameterMopHighWaterMark.mk 9).Decode [1, 0, 2] = .ret p2 (some e) → p2 = ⟨9⟩) ∧
    (∀ w2 e, (WroteXlog.mk 3).Decode [] = .ret w2 (some e) → w2 = ⟨3⟩) :=
  ⟨by decide, (decode_atomic_on_failure ⟨[7]⟩ ⟨9⟩ ⟨3⟩ [1, 0, 2]).2.1,
    (decode_atomic_on_failure ⟨[7]⟩ ⟨9⟩ ⟨3⟩ []).2.2⟩

/-- C19 fails on the code: on the empty payload both fixed-size decoders return an error
whose message kind is `NotificationResponse`, which is neither `ParameterMopHighWaterMark`
nor `WroteXlog`. -/
theorem fixed_size_decode_error_kind (p : ParameterMopHighWaterMark) (w : WroteXlog) :
    p.Decode [] =
      .ret p (some (.invalidMessageFormat ⟨"NotificationResponse", "too short"⟩)) ∧
    w.Decode [] =
      .ret w (some (.invalidMessageFormat ⟨"NotificationResponse", "too short"⟩)) ∧
    ("NotificationResponse" : String) ≠ "ParameterMopHighWaterMark" ∧
    ("NotificationResponse" : String) ≠ "WroteXlog" :=
  ⟨PMHWM_Decode_short p [] (by decide), WroteXlog_Decode_nil w, by decide, by decide⟩

/-- C20, as the claim words it, fails: the string of `2^32 - 5` zero bytes contains a zero
byte, yet its frame on the empty buffer has `2^32 + 1` bytes while the length field reads
`0`. -/
theorem mppQuery_zero_string_lengthField_wraps :
    (0 : Byte) ∈ (MPPQuery.mk (List.replicate 4294967291 0)).String ∧
    ((MPPQuery.mk (List.replicate 4294967291 0)).Encode []).length = 1 + 4294967296 ∧
    lengthField ((MPPQuery.mk (List.replicate 4294967291 0)).Encode []) ([] : List Byte).length
      = some 0 := by
  have hlen : (MPPQuery.mk (List.replicate 4294967291 (0 : Byte))).String.length = 4294967291 :=
    List.length_replicate _ _
  have h := MPPQuery_lengthField (MPPQuery.mk (List.replicate 4294967291 0)) []
  have hl := MPPQuery_Encode_length (MPPQuery.mk (List.replicate 4294967291 0)) []
  rw [hlen] at h hl
  refine ⟨?_, ?_, ?_⟩
  · exact List.mem_replicate.2 ⟨by norm_num, rfl⟩
  · rw [hl]
    rfl
  · rw [h]
    norm_num

/-- C20 (amended): for every string `s` that contains a zero byte, `Decode` applied to the
payload of the frame `Encode` builds returns the malformed-message error of kind `MPPQuery`
and leaves the destination alone; and when `4 + len(s) + 1 < 2^32` the frame's length field
reads `4 + len(s) + 1`, one less than the number of appended bytes. -/
theorem mppQuery_zero_string_not_decodable (dst s : List Byte) (d : MPPQuery)
    (h0 : (0 : Byte) ∈ s) :
    d.Decode (((MPPQuery.mk s).Encode dst).drop (dst.length + 5))
      = .ret d (some (.invalidMessageFormat ⟨"MPPQuery", ""⟩)) ∧
    (4 + s.length + 1 < 2 ^ 32 →
      lengthField ((MPPQuery.mk s).Encode dst) dst.length = some (4 + s.length + 1) ∧
      ((MPPQuery.mk s).Encode dst).length = dst.length + (1 + (4 + s.length + 1))) := by
  refine ⟨?_, ?_⟩
  · rw [MPPQuery_Encode_payload, MPPQuery_Decode_snoc]
    simp [h0]
  · intro hlen
    refine ⟨?_, ?_⟩
    · rw [MPPQuery_lengthField, Nat.mod_eq_of_lt hlen]
    · rw [MPPQuery_Encode_length]
      simp only [List.length]
      omega

/-- Instance of C20 (amended): the string `[104, 0, 105]`, framed on the empty buffer. -/
theorem mppQuery_zero_string_not_decodable_witness :
    (0 : Byte) ∈ ([104, 0, 105] : List Byte) ∧
    (MPPQuery.mk []).Decode (((MPPQuery.mk [104, 0, 105]).Encode []).drop (0 + 5))
      = .ret ⟨[]⟩ (some (.invalidMessageFormat ⟨"MPPQuery", ""⟩)) ∧
    lengthField ((MPPQuery.mk [104, 0, 105]).Encode []) 0 = some 8 :=
  ⟨by decide, (mppQuery_zero_string_not_decodable [] [104, 0, 105] ⟨[]⟩ (by decide)).1,
    ((mppQuery_zero_string_not_decodable [] [104, 0, 105] ⟨[]⟩ (by decide)).2 (by decide)).1⟩

end Pgproto3

namespace Pgtype

/-! ## CompositeFields: decoding -/

/-- C12: for the zero-length `CompositeFields`, every scanner, every registry, every `src`
(nil or not) and every world, `DecodeBinary` and `DecodeText` return the error
"cannot decode into empty CompositeFields" and leave the world as it was; the outcome does
not depend on the scanner, and a nil `src` does not change it. -/
theorem decode_empty_compositeFields {CI V W E S : Type} (sc : CompositeScanner CI V W E S)
    (ci : CI) (src : Option (List Byte)) (w : W) :
    DecodeBinary sc ([] : CompositeFields V) ci src w
      = (some (.Errorf "cannot decode into empty CompositeFields" []), w) ∧
    DecodeText sc ([] : CompositeFields V) ci src w
      = (some (.Errorf "cannot decode into empty CompositeFields" []), w) := by
  constructor <;> rfl

/-- C13: for every `CompositeFields` with at least one slot, `DecodeBinary` and `DecodeText`
called with a nil `src` return the error "cannot decode unexpected null into
CompositeFields" whatever the scanner is, and leave the world (hence every destination slot)
as it was; with the empty non-nil `src` the outcome is the one of the scanner built on the
empty payload and run over the slots. -/
theorem decode_null_compositeFields {CI V W E S : Type} (sc : CompositeScanner CI V W E S)
    (cf : CompositeFields V) (ci : CI) (w : W) (hne : cf ≠ []) :
    DecodeBinary sc cf ci none w
      = (some (.Errorf "cannot decode unexpected null into CompositeFields" []), w) ∧
    DecodeText sc cf ci none w
      = (some (.Errorf "cannot decode unexpected null into CompositeFields" []), w) ∧
    DecodeBinary sc cf ci (some []) w
      = (sc.Err (cf.foldl (fun (acc : S × W) f => sc.ScanValue acc.1 f acc.2)
            (sc.New ci [], w)).1,
          (cf.foldl (fun (acc : S × W) f => sc.ScanValue acc.1 f acc.2) (sc.New ci [], w)).2) ∧
    DecodeText sc cf ci (some []) w
      = (sc.Err (cf.foldl (fun (acc : S × W) f => sc.ScanValue acc.1 f acc.2)
            (sc.New ci [], w)).1,
          (cf.foldl (fun (acc : S × W) f => sc.ScanValue acc.1 f acc.2) (sc.New ci [], w)).2) := by
  have hl : ¬ cf.length = 0 := fun h => hne (List.length_eq_zero.1 h)
  refine ⟨?_, ?_, ?_, ?_⟩
  · simp [DecodeBinary, hl]
  · simp [DecodeText, hl]
  · simp only [DecodeBinary, hl, if_false]
    split
    · rfl
    · rename_i h
      simp only [Option.not_isSome_iff_eq_none] at h
      rw [h]
  · simp only [DecodeText, hl, if_false]
    split
    · rfl
    · rename_i h
      simp only [Option.not_isSome_iff_eq_none] at h
      rw [h]

/-- Instance of C13: one slot; the nil payload is refused, the empty non-nil payload goes to
the (never failing) sample scanner and is accepted. -/
theorem decode_null_compositeFields_witness :
    ([some (SampleValue.int 0)] : CompositeFields SampleValue) ≠ [] ∧
    DecodeBinary sampleScanner [some (.int 0)] sampleConnInfo none ⟨0, []⟩
      = (some (.Errorf "cannot decode unexpected null into CompositeFields" []), ⟨0, []⟩) ∧
    DecodeBinary sampleScanner [some (.int 0)] sampleConnInfo (some []) ⟨0, []⟩
      = (none, ⟨0, []⟩) :=
  ⟨by decide,
    (decode_null_compositeFields sampleScanner [some (.int 0)] sampleConnInfo ⟨0, []⟩
      (by decide)).1,
    (decode_null_compositeFields sampleScanner [some (.int 0)] sampleConnInfo ⟨0, []⟩
      (by decide)).2.2.1⟩

/-! ## CompositeFields: text encoding -/

theorem flatten_map_append_sep (sep : List Byte) (ss : List (List Byte)) (hne : ss ≠ []) :
    (ss.map (fun x => x ++ sep)).flatten = List.intercalate sep ss ++ sep := by
  induction ss with
  | nil => exact absurd rfl hne
  | cons x rest ih =>
    cases rest with
    | nil => simp [List.intercalate]
    | cons y rest2 =>
      have h := ih (by simp)
      simp only [List.map_cons, List.flatten_cons] at h ⊢
      rw [h]
      simp [List.intercalate, List.intersperse]

theorem textFragments_length {CI V W E : Type} (ty : TypeInfo CI V W E)
    (reg : Registry CI V W E) (ci : CI) (cf : List (Option V)) :
    ∀ (scratch : Option (List Byte)) (w w2 : W) (frs : List (Option (List Byte))),
      textFragments ty reg ci cf scratch w = (.ok frs, w2) → frs.length = cf.length := by
  induction cf with
  | nil =>
    intro scratch w w2 frs h
    simp only [textFragments, Prod.mk.injEq, Except.ok.injEq] at h
    rw [← h.1]
    rfl
  | cons f rest ih =>
    intro scratch w w2 frs h
    cases f with
    | none =>
      simp only [textFragments] at h
      split at h
      · simp at h
      · rename_i frs2 w3 heq
        simp only [Prod.mk.injEq, Except.ok.injEq] at h
        rw [← h.1]
        simp [ih _ _ _ _ heq]
    | some v =>
      simp only [textFragments] at h
      split at h
      · simp at h
      · split at h
        · simp at h
        · rename_i frs2 w3 heq
          simp only [Prod.mk.injEq, Except.ok.injEq] at h
          rw [← h.1]
          simp [ih _ _ _ _ heq]

theorem EncodeText_loop_eq {CI V W E : Type} (ty : TypeInfo CI V W E)
    (reg : Registry CI V W E) (ci : CI) (cf : List (Option V)) :
    ∀ (buf : List Byte) (scratch : Option (List Byte)) (w : W),
      EncodeText.loop ty reg ci cf buf scratch w =
        match textFragments ty reg ci cf scratch w with
        | (.error err, w2) => (.error err, w2)
        | (.ok frs, w2) =>
          (.ok (buf ++ (frs.map (fun fr => textSlot fr ++ [(44 : Byte)])).flatten), w2) := by
  induction cf with
  | nil =>
    intro buf scratch w
    simp [EncodeText.loop, textFragments]
  | cons f rest ih =>
    intro buf scratch w
    cases f with
    | none =>
      simp only [EncodeText.loop, textFragments, ih]
      cases textFragments ty reg ci rest scratch w with
      | mk r w2 =>
        cases r with
        | error e => rfl
        | ok frs => simp [textSlot]
    | some v =>
      simp only [EncodeText.loop, textFragments, dispatchText]
      cases h1 : ty.asTextEncoder v with
      | some own =>
        simp only []
        cases h2 : own ci w (resliceEmpty scratch) with
        | mk res w1 =>
          cases res with
          | mk frag err =>
            cases err with
            | some e => rfl
            | none =>
              simp only [ih]
              cases textFragments ty reg ci rest frag w1 with
              | mk r w2 =>
                cases r with
                | error e => rfl
                | ok frs => cases frag <;> simp [textSlot]
      | none =>
        simp only []
        cases h3 : reg.DataTypeForValue ci (some v) with
        | none => rfl
        | some dt =>
          simp only []
          cases h4 : dt.Value.Set w (some v) with
          | mk w1 serr =>
            cases serr with
            | some e => rfl
            | none =>
              simp only []
              cases h5 : dt.Value.asTextEncoder with
              | none => rfl
              | some enc =>
                simp only []
                cases h2 : enc ci w1 (resliceEmpty scratch) with
                | mk res w3 =>
                  cases res with
                  | mk frag err =>
                    cases err with
                    | some e => rfl
                    | none =>
                      simp only [ih]
                      cases textFragments ty reg ci rest frag w3 with
                      | mk r w2 =>
                        cases r with
                        | error e => rfl
                        | ok frs => cases frag <;> simp [textSlot]

theorem setIndex_last (l : List Byte) (a b : Byte) :
    setIndex (l ++ [a]) (((l ++ [a]).length : Int) - 1) b = some (l ++ [b]) := by
  have h1 : (((l ++ [a]).length : Int) - 1) = (l.length : Int) := by simp
  rw [h1]
  simp [setIndex]

theorem intercalate_cons_cons (sep x y : List Byte) (rest : List (List Byte)) :
    List.intercalate sep (x :: y :: rest) = x ++ sep ++ List.intercalate sep (y :: rest) := by
  simp [List.intercalate, List.intersperse]

theorem length_intercalate_comma (ss : List (List Byte)) (hne : ss ≠ []) :
    (List.intercalate [(44 : Byte)] ss).length + 1 = (ss.map List.length).sum + ss.length := by
  induction ss with
  | nil => exact absurd rfl hne
  | cons x rest ih =>
    cases rest with
    | nil => simp [List.intercalate]
    | cons y rest2 =>
      have h := ih (by simp)
      rw [intercalate_cons_cons]
      simp only [List.length_append, List.length_singleton, List.map_cons, List.sum_cons,
        List.length_cons, List.length_nil] at h ⊢
      omega

theorem EncodeText_of_fragments {CI V W E : Type} (ty : TypeInfo CI V W E)
    (reg : Registry CI V W E) (ci : CI) (cf : CompositeFields V) (buf : List Byte) (w w2 : W)
    (frs : List (Option (List Byte))) (hne : cf ≠ [])
    (hok : textFragments ty reg ci cf (some []) w = (.ok frs, w2)) :
    EncodeText ty reg cf ci buf w = .ret ((some (compositeText buf frs), none), w2) := by
  have hlen := textFragments_length ty reg ci cf _ _ _ _ hok
  have hfr : frs.map textSlot ≠ [] := by
    intro h
    have h2 : (frs.map textSlot).length = 0 := by rw [h]; rfl
    rw [List.length_map, hlen] at h2
    exact hne (List.length_eq_zero.1 h2)
  have hflat : (frs.map (fun fr => textSlot fr ++ [(44 : Byte)])).flatten
      = List.intercalate [(44 : Byte)] (frs.map textSlot) ++ [(44 : Byte)] := by
    rw [← flatten_map_append_sep [(44 : Byte)] (frs.map textSlot) hfr, List.map_map]
    rfl
  simp only [EncodeText, EncodeText_loop_eq, hok, hflat]
  rw [← List.append_assoc, setIndex_last]
  simp [compositeText]

theorem EncodeText_of_error {CI V W E : Type} (ty : TypeInfo CI V W E)
    (reg : Registry CI V W E) (ci : CI) (cf : CompositeFields V) (buf : List Byte) (w w2 : W)
    (err : GoErr V E)
    (herr : EncodeText.loop ty reg ci cf (buf ++ [(40 : Byte)]) (some []) w
      = (.error err, w2)) :
    EncodeText ty reg cf ci buf w = .ret ((none, some err), w2) := by
  simp [EncodeText, herr]

/-- C14 fails on the code: for the zero-length field list the call succeeds and returns
`buf` followed by the single byte `)`; the opening parenthesis has been overwritten, so the
appended fragment does not begin with `(`. -/
theorem encodeText_empty_list_drops_paren {CI V W E : Type} (ty : TypeInfo CI V W E)
    (reg : Registry CI V W E) (ci : CI) (buf : List Byte) (w : W) :
    EncodeText ty reg ([] : CompositeFields V) ci buf w
      = .ret ((some (buf ++ [(41 : Byte)]), none), w) ∧
    (buf ++ [(41 : Byte)]).drop buf.length = [(41 : Byte)] ∧
    ([(41 : Byte)].head? ≠ some (40 : Byte)) := by
  refine ⟨?_, by simp, by decide⟩
  simp only [EncodeText, EncodeText.loop]
  rw [setIndex_last]

/-- C15: for every list of at least one field whose fields all encode without error, with
text fragments `frs` (a nil field or a nil fragment being the null fragment), `EncodeText`
returns `buf`, then `(`, then the slots joined by `,`, then `)`, where the slot of a null
fragment is empty and any other slot is `QuoteCompositeFieldIfNeeded` of the fragment; there
is one slot per field, hence one comma fewer than fields. -/
theorem encodeText_eq_reference {CI V W E : Type} (ty : TypeInfo CI V W E)
    (reg : Registry CI V W E) (ci : CI) (cf : CompositeFields V) (buf : List Byte) (w w2 : W)
    (frs : List (Option (List Byte))) (hne : cf ≠ [])
    (hok : textFragments ty reg ci cf (some []) w = (.ok frs, w2)) :
    EncodeText ty reg cf ci buf w = .ret ((some (compositeText buf frs), none), w2) ∧
    frs.length = cf.length ∧
    (compositeText buf frs).length
      = buf.length + 2 + ((frs.map textSlot).map List.length).sum + (cf.length - 1) := by
  have hlen := textFragments_length ty reg ci cf _ _ _ _ hok
  refine ⟨EncodeText_of_fragments ty reg ci cf buf w w2 frs hne hok, hlen, ?_⟩
  have hfr : frs.map textSlot ≠ [] := by
    intro h
    have h2 : (frs.map textSlot).length = 0 := by rw [h]; rfl
    rw [List.length_map, hlen] at h2
    exact hne (List.length_eq_zero.1 h2)
  have hi := length_intercalate_comma (frs.map textSlot) hfr
  have hpos : 0 < cf.length := List.length_pos.2 hne
  simp only [compositeText, List.length_append, List.length_singleton]
  rw [List.length_map, hlen] at hi
  omega

/-- Instance of C15: the two-field list `[1, "a,b"]` yields `(1,"a,b")`. -/
theorem encodeText_eq_reference_witness :
    ([some (SampleValue.int 1), some (SampleValue.str [97, 44, 98])]
      : CompositeFields SampleValue) ≠ [] ∧
    textFragments sampleTypes sampleRegistry sampleConnInfo
        [some (.int 1), some (.str [97, 44, 98])] (some []) ⟨0, []⟩
      = (.ok [some [49], some [97, 44, 98]], ⟨1, [97, 44, 98]⟩) ∧
    EncodeText sampleTypes sampleRegistry [some (.int 1), some (.str [97, 44, 98])]
        sampleConnInfo [] ⟨0, []⟩
      = .ret ((some [40, 49, 44, 34, 97, 44, 98, 34, 41], none), ⟨1, [97, 44, 98]⟩) :=
  ⟨by decide, rfl,
    (encodeText_eq_reference sampleTypes sampleRegistry sampleConnInfo
      [some (.int 1), some (.str [97, 44, 98])] [] ⟨0, []⟩ ⟨1, [97, 44, 98]⟩
      [some [49], some [97, 44, 98]] (by decide) rfl).1⟩

theorem textFragments_single {CI V W E : Type} (ty : TypeInfo CI V W E)
    (reg : Registry CI V W E) (ci : CI) (f : V) (w w2 : W) (frag : Option (List Byte))
    (h : dispatchText ty reg ci f (some []) w = (.ok frag, w2)) :
    textFragments ty reg ci [some f] (some []) w = (.ok [frag], w2) := by
  simp [textFragments, resliceEmpty, h]

/-- On the fresh scratch buffer the empty string and NULL are told apart: a one-field list
whose field has the empty non-nil fragment encodes to `buf ++ ("")`, the one-field list
`[nil]` to `buf ++ ()`, and the two outputs differ. -/
theorem EncodeText_single_empty_fragment {CI V W E : Type} (ty : TypeInfo CI V W E)
    (reg : Registry CI V W E) (ci : CI) (f : V) (buf : List Byte) (w w2 : W)
    (hfrag : dispatchText ty reg ci f (some []) w = (.ok (some []), w2)) :
    textSlot (some []) = [(34 : Byte), 34] ∧ textSlot none = [] ∧
    EncodeText ty reg [some f] ci buf w
      = .ret ((some (buf ++ [(40 : Byte), 34, 34, 41]), none), w2) ∧
    EncodeText ty reg [none] ci buf w = .ret ((some (buf ++ [(40 : Byte), 41]), none), w) ∧
    buf ++ [(40 : Byte), 34, 34, 41] ≠ buf ++ [(40 : Byte), 41] := by
  have hq : textSlot (some []) = [(34 : Byte), 34] := by decide
  refine ⟨hq, rfl, ?_, ?_, ?_⟩
  · rw [EncodeText_of_fragments ty reg ci [some f] buf w w2 [some []] (by simp)
      (textFragments_single ty reg ci f w w2 (some []) hfrag)]
    simp [compositeText, hq, List.intercalate]
  · rw [EncodeText_of_fragments ty reg ci [none] buf w w [none] (by simp) rfl]
    simp [compositeText, textSlot, List.intercalate]
  · intro h
    have h2 := List.append_cancel_left h
    exact absurd h2 (by decide)

/-- After a field whose own encoder returned the nil fragment, the next field's encoder is
handed the nil buffer (`fieldBuf[0:0]` of nil is nil); when it answers nil to that, as an
encoder appending the empty string does, its slot is empty as well. -/
theorem EncodeText_loop_after_null_fragment {CI V W E : Type} (ty : TypeInfo CI V W E)
    (reg : Registry CI V W E) (ci : CI) (g f : V) (rest : List (Option V)) (buf : List Byte)
    (scratch : Option (List Byte)) (w w1 w2 : W) (ownG ownF : TextEncoder CI V W E)
    (hg : ty.asTextEncoder g = some ownG) (hf : ty.asTextEncoder f = some ownF)
    (hgnull : ownG ci w (resliceEmpty scratch) = ((none, none), w1))
    (hfnil : ownF ci w1 none = ((none, none), w2)) :
    EncodeText.loop ty reg ci (some g :: some f :: rest) buf scratch w
      = EncodeText.loop ty reg ci rest (buf ++ [(44 : Byte)] ++ [(44 : Byte)]) none w2 := by
  have hr : resliceEmpty (none : Option (List Byte)) = none := rfl
  simp only [EncodeText.loop, hg, hgnull, hf, hr, hfnil]

/-- C16 fails on the code: alone, the text value holding the empty string is emitted as
`("")`; placed after a NULL text value it is handed the nil buffer, returns the nil fragment
and is emitted as an empty slot, so `[NULL, ""]` encodes to `(,)`, exactly as `[NULL, NULL]`
does; after a nil field (which leaves the scratch buffer alone) it is still `""`. -/
theorem encodeText_empty_string_after_null :
    EncodeText sampleTypes sampleRegistry [some (SampleValue.text (some []))]
        sampleConnInfo [] ⟨0, []⟩
      = .ret ((some [40, 34, 34, 41], none), ⟨0, []⟩) ∧
    EncodeText sampleTypes sampleRegistry
        [some (SampleValue.text none), some (SampleValue.text (some []))]
        sampleConnInfo [] ⟨0, []⟩
      = .ret ((some [40, 44, 41], none), ⟨0, []⟩) ∧
    EncodeText sampleTypes sampleRegistry
        [some (SampleValue.text none), some (SampleValue.text none)]
        sampleConnInfo [] ⟨0, []⟩
      = .ret ((some [40, 44, 41], none), ⟨0, []⟩) ∧
    EncodeText sampleTypes sampleRegistry [none, some (SampleValue.text (some []))]
        sampleConnInfo [] ⟨0, []⟩
      = .ret ((some [40, 44, 34, 34, 41], none), ⟨0, []⟩) :=
  ⟨by decide, by decide, by decide, by decide⟩

/-- C18, as the claim words it, fails: the value `composite [1]` (a `CompositeFields`
holding the integer 1) is a text encoder itself and the registry has no entry for it, yet
encoding it looks the integer up and calls `Set` (the integer prototype goes from 0 to 1),
and under a registry without integers the field does not encode: the call fails with the
unknown-type error of the inner integer. -/
theorem encodeText_own_encoder_uses_registry :
    (sampleTypes.asTextEncoder (SampleValue.composite [1])).isSome = true ∧
    sampleRegistry.DataTypeForValue sampleConnInfo (some (SampleValue.composite [1])) = none ∧
    EncodeText sampleTypes sampleRegistry [some (SampleValue.composite [1])]
        sampleConnInfo [] ⟨0, []⟩
      = .ret ((some [40, 34, 40, 49, 41, 34, 41], none), ⟨1, []⟩) ∧
    (⟨1, []⟩ : SampleWorld) ≠ ⟨0, []⟩ ∧
    sampleRegistry.DataTypeForValue ⟨false⟩ (some (SampleValue.composite [1])) = none ∧
    EncodeText sampleTypes sampleRegistry [some (SampleValue.composite [1])]
        ⟨false⟩ [] ⟨0, []⟩
      = .ret ((none, some (.Errorf "Unknown data type for %#v" [some (SampleValue.int 1)])),
          ⟨0, []⟩) :=
  ⟨rfl, rfl, by decide, by decide, rfl, by decide⟩

/-- C18 (amended): in the loop of `EncodeText`, at any position and in any state, a non-nil
field `f` that is itself a text encoder is encoded by a call of its own encoder with `ci`
and the scratch buffer, and the loop makes no lookup and no `Set` of its own for it: the
step is decided by that call alone (its fragment or error and the world it leaves), so a
one-field list of such a field encodes whenever the encoder succeeds, whatever the registry
answers for `f`. A field that is not a text encoder makes the call fail with the
unknown-type error when the lookup fails, with the error of `Set` when `Set` fails, and with
the cannot-encode-text error when the prototype is no text encoder; every failure of the
loop makes `EncodeText` return a nil buffer. -/
theorem encodeText_dispatch_order {CI V W E : Type} (ty : TypeInfo CI V W E)
    (reg : Registry CI V W E) (ci : CI) (f : V) (rest : List (Option V)) (buf : List Byte)
    (scratch : Option (List Byte)) (w : W) :
    (∀ own frag w1, ty.asTextEncoder f = some own →
      own ci w (resliceEmpty scratch) = ((frag, none), w1) →
      EncodeText.loop ty reg ci (some f :: rest) buf scratch w
        = EncodeText.loop ty reg ci rest (buf ++ textSlot frag ++ [(44 : Byte)]) frag w1) ∧
    (∀ own frag err w1, ty.asTextEncoder f = some own →
      own ci w (resliceEmpty scratch) = ((frag, some err), w1) →
      EncodeText.loop ty reg ci (some f :: rest) buf scratch w = (.error err, w1)) ∧
    (∀ own frag w1, ty.asTextEncoder f = some own →
      own ci w (some []) = ((frag, none), w1) →
      EncodeText ty reg [some f] ci buf w
        = .ret ((some (buf ++ [(40 : Byte)] ++ textSlot frag ++ [(41 : Byte)]), none), w1)) ∧
    (ty.asTextEncoder f = none → reg.DataTypeForValue ci (some f) = none →
      EncodeText.loop ty reg ci (some f :: rest) buf scratch w
        = (.error (.Errorf "Unknown data type for %#v" [some f]), w)) ∧
    (∀ dt w1 err, ty.asTextEncoder f = none → reg.DataTypeForValue ci (some f) = some dt →
      dt.Value.Set w (some f) = (w1, some err) →
      EncodeText.loop ty reg ci (some f :: rest) buf scratch w = (.error err, w1)) ∧
    (∀ dt w1, ty.asTextEncoder f = none → reg.DataTypeForValue ci (some f) = some dt →
      dt.Value.Set w (some f) = (w1, none) → dt.Value.asTextEncoder = none →
      EncodeText.loop ty reg ci (some f :: rest) buf scratch w
        = (.error (.Errorf "Cannot encode text format for %v" [some f]), w1)) ∧
    (∀ (cf : CompositeFields V) (b : List Byte) err w2,
      EncodeText.loop ty reg ci cf (b ++ [(40 : Byte)]) (some []) w = (.error err, w2) →
      EncodeText ty reg cf ci b w = .ret ((none, some err), w2)) := by
  refine ⟨?_, ?_, ?_, ?_, ?_, ?_, ?_⟩
  · intro own frag w1 h1 h2
    simp only [EncodeText.loop, h1, h2]
    cases frag <;> simp [textSlot]
  · intro own frag err w1 h1 h2
    simp only [EncodeText.loop, h1, h2]
  · intro own frag w1 h1 h2
    have hd : dispatchText ty reg ci f (some []) w = (.ok frag, w1) := by
      simp only [dispatchText, h1, h2]
    rw [EncodeText_of_fragments ty reg ci [some f] buf w w1 [frag] (by simp)
      (textFragments_single ty reg ci f w w1 frag hd)]
    simp [compositeText, List.intercalate]
  · intro h1 h3
    simp only [EncodeText.loop, h1, h3]
  · intro dt w1 err h1 h3 h4
    simp only [EncodeText.loop, h1, h3, h4]
  · intro dt w1 h1 h3 h4 h5
    simp only [EncodeText.loop, h1, h3, h4, h5]
  · intro cf b err w2 herr
    exact EncodeText_of_error ty reg ci cf b w w2 err herr

/-- Instance of C18 (amended): the sample registry does not resolve `text` values, yet a
`text` value encodes through its own encoder, to `(h)`. -/
theorem encodeText_dispatch_order_witness :
    sampleRegistry.DataTypeForValue sampleConnInfo (some (SampleValue.text (some [104])))
      = none ∧
    EncodeText sampleTypes sampleRegistry [some (SampleValue.text (some [104]))]
        sampleConnInfo [] ⟨0, []⟩
      = .ret ((some [40, 104, 41], none), ⟨0, []⟩) :=
  ⟨rfl,
    (encodeText_dispatch_order sampleTypes sampleRegistry sampleConnInfo
      (SampleValue.text (some [104])) [] [] none ⟨0, []⟩).2.2.1 _ (some [104]) ⟨0, []⟩
      rfl rfl⟩

/-! ## CompositeFields: binary encoding -/

theorem EncodeBinary_loop_append {CI V W E B : Type} (bld : CompositeBinaryBuilder CI V W E B)
    (ty : TypeInfo CI V W E) (reg : Registry CI V W E) (ci : CI)
    (pre post : List (Option V)) :
    ∀ (b : B) (w : W),
      EncodeBinary.loop bld ty reg ci (pre ++ post) b w =
        match EncodeBinary.loop bld ty reg ci pre b w with
        | (.error err, w2) => (.error err, w2)
        | (.ok b2, w2) => EncodeBinary.loop bld ty reg ci post b2 w2 := by
  induction pre with
  | nil =>
    intro b w
    simp [EncodeBinary.loop]
  | cons f rest ih =>
    intro b w
    simp only [List.cons_append, EncodeBinary.loop]
    cases h1 : reg.DataTypeForValue ci f with
    | none => rfl
    | some dt =>
      simp only []
      cases h2 : f.bind ty.asBinaryEncoder with
      | some enc =>
        simp only []
        exact ih _ _
      | none =>
        simp only []
        cases h3 : dt.Value.Set w f with
        | mk w1 serr =>
          cases serr with
          | some e => rfl
          | none =>
            simp only []
            cases h4 : dt.Value.asBinaryEncoder with
            | none => rfl
            | some enc =>
              simp only []
              exact ih _ _

theorem EncodeBinary_loop_unresolved {CI V W E B : Type}
    (bld : CompositeBinaryBuilder CI V W E B) (ty : TypeInfo CI V W E)
    (reg : Registry CI V W E) (ci : CI) (cf : List (Option V))
    (h : ∃ f, f ∈ cf ∧ reg.DataTypeForValue ci f = none) :
    ∀ (b : B) (w : W),
      ∃ err w2, EncodeBinary.loop bld ty reg ci cf b w = (.error err, w2) := by
  induction cf with
  | nil =>
    obtain ⟨f, hf, _⟩ := h
    simp at hf
  | cons g rest ih =>
    intro b w
    simp only [EncodeBinary.loop]
    cases h1 : reg.DataTypeForValue ci g with
    | none => exact ⟨_, _, rfl⟩
    | some dt =>
      have hrest : ∃ f, f ∈ rest ∧ reg.DataTypeForValue ci f = none := by
        obtain ⟨f, hf, hnone⟩ := h
        rcases List.mem_cons.1 hf with hfg | hfr
        · subst hfg
          rw [h1] at hnone
          cases hnone
        · exact ⟨f, hfr, hnone⟩
      simp only []
      cases h2 : g.bind ty.asBinaryEncoder with
      | some enc =>
        simp only []
        exact ih hrest _ _
      | none =>
        simp only []
        cases h3 : dt.Value.Set w g with
        | mk w1 serr =>
          cases serr with
          | some e => exact ⟨_, _, rfl⟩
          | none =>
            simp only []
            cases h4 : dt.Value.asBinaryEncoder with
            | none => exact ⟨_, _, rfl⟩
            | some enc =>
              simp only []
              exact ih hrest _ _

/-- C17: for every field list holding at least one field (nil or not, binary encoder or not)
that `DataTypeForValue` does not resolve, `EncodeBinary` returns a nil buffer together with
an error; and when the fields before the first such field `f` all pass, the error is
"Unknown OID for %#v" built from `f`. -/
theorem encodeBinary_unresolved_fails {CI V W E B : Type}
    (bld : CompositeBinaryBuilder CI V W E B) (ty : TypeInfo CI V W E)
    (reg : Registry CI V W E) (ci : CI) (cf : CompositeFields V) (buf : List Byte)
    (w : W) (h : ∃ f, f ∈ cf ∧ reg.DataTypeForValue ci f = none) :
    (∃ err w2, EncodeBinary bld ty reg cf ci buf w = ((none, some err), w2)) ∧
    (∀ pre f post b2 w2, cf = pre ++ f :: post → reg.DataTypeForValue ci f = none →
      EncodeBinary.loop bld ty reg ci pre (bld.NewCompositeBinaryBuilder ci buf) w
        = (.ok b2, w2) →
      EncodeBinary bld ty reg cf ci buf w
        = ((none, some (.Errorf "Unknown OID for %#v" [f])), w2)) := by
  refine ⟨?_, ?_⟩
  · obtain ⟨err, w2, he⟩ :=
      EncodeBinary_loop_unresolved bld ty reg ci cf h (bld.NewCompositeBinaryBuilder ci buf) w
    exact ⟨err, w2, by simp [EncodeBinary, he]⟩
  · intro pre f post b2 w2 hcf hf hpre
    subst hcf
    simp only [EncodeBinary, EncodeBinary_loop_append, hpre, EncodeBinary.loop, hf]

/-- Instance of C17: a resolvable Go string followed by a nil field. -/
theorem encodeBinary_unresolved_fails_witness :
    (∃ f, f ∈ ([some (SampleValue.str [97]), none] : CompositeFields SampleValue) ∧
      sampleRegistry.DataTypeForValue sampleConnInfo f = none) ∧
    EncodeBinary sampleBuilder sampleTypes sampleRegistry [some (SampleValue.str [97]), none]
        sampleConnInfo [] ⟨0, []⟩
      = ((none, some (.Errorf "Unknown OID for %#v" [none])), ⟨0, [97]⟩) :=
  ⟨⟨none, by simp, rfl⟩,
    (encodeBinary_unresolved_fails sampleBuilder sampleTypes sampleRegistry sampleConnInfo
      [some (SampleValue.str [97]), none] [] ⟨0, []⟩ ⟨none, by simp, rfl⟩).2
      [some (SampleValue.str [97])] none [] (sampleConnInfo, [97]) ⟨0, [97]⟩ rfl rfl rfl⟩

end Pgtype
